import Mathlib

/-!
# Verification development for the `culsynth` audio DSP boundary

The repository's visible artifact is `src/culsynth_bindings/include/culsynth.h`:
a C foreign-function boundary for four audio units (amplifier, envelope,
state-variable filter, oscillator), each in an `i16` fixed-point and an `f32`
floating-point variant, plus C++ RAII wrapper classes in namespace `culsynth`.

The DSP implementations behind the boundary are not part of the repository
sources; where a claim depends on them, the corresponding definition below is
modelled from the specification (its doc comment says so explicitly and names
the missing piece).  The C++ wrapper classes *are* in the sources and are
embedded directly.

Conventions of the shallow embedding:
* buffers are `List`s, one element per sample frame;
* `f32` arithmetic is modelled over `ℚ` (exact arithmetic standing in for the
  real-valued semantics the spec describes);
* `i16`/`u16` fixed-point values are `Int`/`Nat` with explicit saturation;
* a `process` call returns a status code, the successor instance state and the
  list of written output frames.
-/

namespace Culsynth

/-- Modelled from the spec: the header only declares
`extern uint32_t CULSYNTH_SR_480;` — the constant's value is not in the
sources.  The spec calls it the "48k-family" rate constant; we fix the
representative value 48000. -/
def CULSYNTH_SR_480 : Nat := 48000

/-- Modelled from the spec: the header only declares
`extern uint32_t CULSYNTH_SR_441;` — the constant's value is not in the
sources.  The spec calls it the "44.1k-family" rate constant; we fix the
representative value 44100. -/
def CULSYNTH_SR_441 : Nat := 44100

/-- Modelled from the spec: "Two named constants identify the two supported
sample-rate families; these are the only legal values for the `sample_rate`
argument."  The per-call validity check every unit performs. -/
def supportedSR (sr : Nat) : Bool := sr == CULSYNTH_SR_480 || sr == CULSYNTH_SR_441

theorem supportedSR_iff (sr : Nat) :
    supportedSR sr = true ↔ sr = CULSYNTH_SR_480 ∨ sr = CULSYNTH_SR_441 := by
  simp [supportedSR]

/-- Modelled from the spec: the nonzero signed status code returned for an
unsupported `sample_rate` (the exact value is not recoverable from the
boundary header; any nonzero value fits the contract). -/
def ERR_UNSUPPORTED_SR : Int := -1

/-- Result of one `process` call: signed status code, successor instance
state, and the output frames actually written. -/
structure ProcResult (S O : Type) where
  status : Int
  state : S
  out : List O
deriving Repr

/-- Run a per-sample step function over a whole input buffer, threading the
instance state and collecting one output frame per input frame.  This is the
spec's streaming model: "processing is streaming across calls of arbitrary,
caller-chosen block length". -/
def runUnit {S I O : Type} (step : S → I → S × O) : S → List I → S × List O
  | s, [] => (s, [])
  | s, i :: is =>
    let so := step s i
    let rest := runUnit step so.1 is
    (rest.1, so.2 :: rest.2)

@[simp] theorem runUnit_nil {S I O : Type} (step : S → I → S × O) (s : S) :
    runUnit step s [] = (s, []) := rfl

@[simp] theorem runUnit_cons {S I O : Type} (step : S → I → S × O) (s : S)
    (i : I) (is : List I) :
    runUnit step s (i :: is) =
      ((runUnit step (step s i).1 is).1,
        (step s i).2 :: (runUnit step (step s i).1 is).2) := rfl

theorem runUnit_append {S I O : Type} (step : S → I → S × O) (s : S)
    (xs ys : List I) :
    runUnit step s (xs ++ ys) =
      ((runUnit step (runUnit step s xs).1 ys).1,
        (runUnit step s xs).2 ++ (runUnit step (runUnit step s xs).1 ys).2) := by
  induction xs generalizing s with
  | nil => simp
  | cons x xs ih => simp [ih]

/-- A stateless step function acts as a pure `map` over the input buffer. -/
theorem runUnit_stateless {I O : Type} (f : I → O) (is : List I) :
    runUnit (fun (_ : Unit) i => ((), f i)) () is = ((), is.map f) := by
  induction is with
  | nil => rfl
  | cons i is ih => simp [ih]

/-- Every output frame of a run satisfies `P` as soon as every single step's
output does, regardless of the state it is produced from. -/
theorem runUnit_out_forall {S I O : Type} {step : S → I → S × O} {P : O → Prop}
    (hstep : ∀ s i, P (step s i).2) :
    ∀ (s : S) (is : List I), ∀ o ∈ (runUnit step s is).2, P o := by
  intro s is
  induction is generalizing s with
  | nil => intro o ho; simp at ho
  | cons i is ih =>
    intro o ho
    simp only [runUnit_cons, List.mem_cons] at ho
    rcases ho with h | h
    · exact h ▸ hstep s i
    · exact ih _ o h

/-- A state predicate preserved by every step holds for the final state of a
run. -/
theorem runUnit_state_invariant {S I O : Type} {step : S → I → S × O}
    {P : S → Prop} (hstep : ∀ s i, P s → P (step s i).1) :
    ∀ (s : S) (is : List I), P s → P (runUnit step s is).1 := by
  intro s is
  induction is generalizing s with
  | nil => intro h; simpa using h
  | cons i is ih => intro h; exact ih _ (hstep s i h)

/-- Modelled from the spec: the shape shared by every
`culsynth_<unit>_<variant>_process` entry point — validate the sample rate,
then stream the unit's per-sample step over the buffers; on an unsupported
rate return a nonzero status, leave the instance state untouched and write no
output. -/
def culsynthProcess {S I O : Type} (step : S → I → S × O) (sr : Nat) (s : S)
    (input : List I) : ProcResult S O :=
  if supportedSR sr then
    let r := runUnit step s input
    ⟨0, r.1, r.2⟩
  else ⟨ERR_UNSUPPORTED_SR, s, []⟩

/-! ## Amplifier -/

/-- Saturate an `Int` into the signed 16-bit range, per the spec's
"saturating or clamping arithmetic" invariant for fixed-point paths. -/
def satI16 (x : Int) : Int := max (-32768) (min 32767 x)

theorem satI16_lower (x : Int) : -32768 ≤ satI16 x := le_max_left _ _

theorem satI16_upper (x : Int) : satI16 x ≤ 32767 := by
  apply max_le
  · decide
  · exact min_le_left _ _

theorem satI16_of_range {x : Int} (hlo : -32768 ≤ x) (hhi : x ≤ 32767) :
    satI16 x = x := by
  unfold satI16
  rw [min_eq_right hhi, max_eq_right hlo]

/-- Modelled from the spec (§4.1, floating variant): the amplifier's
per-sample transform behind `culsynth_amp_f32_process`, which is absent from
the sources.  "For each index i, `out[i] = f(signal[i], gain[i])` where f
multiplies the input sample by a gain factor derived from `gain[i]`";
stateless, gain used directly as the unipolar multiplier. -/
def ampF32Step (_ : Unit) (i : ℚ × ℚ) : Unit × ℚ := ((), i.1 * i.2)

/-- Modelled from the spec (§4.1, fixed-point variant): the amplifier's
per-sample transform behind `culsynth_amp_i16_process`, which is absent from
the sources.  The unsigned 16-bit gain maps linearly to a 0..1-equivalent
multiplier (scale 1/65536), and the product is saturated into the signed
16-bit output range. -/
def ampI16Step (_ : Unit) (i : Int × Nat) : Unit × Int :=
  ((), satI16 ((i.1 * (i.2 : Int)) / 65536))

/-- Modelled from the spec: `culsynth_amp_f32_process`, whose body is absent
from the sources — the sample-rate check followed by the stateless per-sample
gain transform.  Buffers are paired `(signal, gain)` frames. -/
def culsynth_amp_f32_process (sr : Nat) (s : Unit) (input : List (ℚ × ℚ)) :
    ProcResult Unit ℚ :=
  culsynthProcess ampF32Step sr s input

/-- Modelled from the spec: `culsynth_amp_i16_process`, whose body is absent
from the sources — the sample-rate check followed by the stateless saturating
per-sample gain transform. -/
def culsynth_amp_i16_process (sr : Nat) (s : Unit) (input : List (Int × Nat)) :
    ProcResult Unit Int :=
  culsynthProcess ampI16Step sr s input

/-- Claim C2: for every unit's step function, every state and every input
stream, the modelled `process` entry point returns status 0 exactly when the
`sample_rate` argument equals one of the two named constants
`CULSYNTH_SR_480` and `CULSYNTH_SR_441`, and a nonzero signed status
otherwise.  Every unit/variant entry point of the boundary is an instance of
`culsynthProcess`, so the quantification over `step` covers all of them. -/
theorem process_status_zero_iff_supported {S I O : Type} (step : S → I → S × O)
    (sr : Nat) (s : S) (input : List I) :
    (culsynthProcess step sr s input).status = 0 ↔
      sr = CULSYNTH_SR_480 ∨ sr = CULSYNTH_SR_441 := by
  rw [← supportedSR_iff]
  unfold culsynthProcess
  by_cases h : supportedSR sr = true
  · simp [h]
  · simp only [Bool.not_eq_true] at h
    simp [h, ERR_UNSUPPORTED_SR]

/-- Claim C3: for every unit's step function, if `process` is given an
unsupported sample rate then the call is atomic on error — no output frame is
written, the instance state is returned unchanged, and the status code is
nonzero. -/
theorem process_unsupported_sr_atomic {S I O : Type} (step : S → I → S × O)
    (sr : Nat) (s : S) (input : List I)
    (h : ¬(sr = CULSYNTH_SR_480 ∨ sr = CULSYNTH_SR_441)) :
    (culsynthProcess step sr s input).out = [] ∧
      (culsynthProcess step sr s input).state = s ∧
      (culsynthProcess step sr s input).status ≠ 0 := by
  have hb : ¬supportedSR sr = true := by
    rw [supportedSR_iff]; exact h
  simp only [Bool.not_eq_true] at hb
  unfold culsynthProcess
  simp [hb, ERR_UNSUPPORTED_SR]

/-- Witness for C3 at the concrete unsupported rate 22050 on the fixed-point
amplifier with a one-frame buffer. -/
theorem process_unsupported_sr_atomic_witness :
    ¬((22050 : Nat) = CULSYNTH_SR_480 ∨ (22050 : Nat) = CULSYNTH_SR_441) ∧
      ((culsynthProcess ampI16Step 22050 () [((100 : Int), (200 : Nat))]).out = [] ∧
        (culsynthProcess ampI16Step 22050 () [((100 : Int), (200 : Nat))]).state = () ∧
        (culsynthProcess ampI16Step 22050 () [((100 : Int), (200 : Nat))]).status ≠ 0) :=
  ⟨by decide,
    process_unsupported_sr_atomic ampI16Step 22050 () [((100 : Int), (200 : Nat))]
      (by decide)⟩

/-- Claim C4: streaming equivalence.  For every unit's step function, every
supported sample rate, every starting state and every split `xs ++ ys` of the
input buffer, one `process` call over the whole buffer yields the same final
instance state and the same concatenated output as two consecutive calls over
the two halves, the second starting from the state the first returned. -/
theorem process_streaming_split {S I O : Type} (step : S → I → S × O)
    (sr : Nat) (s : S) (xs ys : List I) (h : supportedSR sr = true) :
    (culsynthProcess step sr s (xs ++ ys)).state =
        (culsynthProcess step sr (culsynthProcess step sr s xs).state ys).state ∧
      (culsynthProcess step sr s (xs ++ ys)).out =
        (culsynthProcess step sr s xs).out ++
          (culsynthProcess step sr (culsynthProcess step sr s xs).state ys).out := by
  unfold culsynthProcess
  simp only [h, if_pos]
  rw [runUnit_append]
  exact ⟨rfl, rfl⟩

/-- Witness for C4: splitting a concrete three-frame fixed-point amplifier
buffer as 2 + 1 at the supported rate `CULSYNTH_SR_480`. -/
theorem process_streaming_split_witness :
    supportedSR 48000 = true ∧
      ((culsynthProcess ampI16Step 48000 ()
            ([((1000 : Int), (65535 : Nat)), ((-2000 : Int), (32768 : Nat))] ++
              [((30000 : Int), (65535 : Nat))])).state =
          (culsynthProcess ampI16Step 48000
              (culsynthProcess ampI16Step 48000 ()
                [((1000 : Int), (65535 : Nat)), ((-2000 : Int), (32768 : Nat))]).state
              [((30000 : Int), (65535 : Nat))]).state ∧
        (culsynthProcess ampI16Step 48000 ()
            ([((1000 : Int), (65535 : Nat)), ((-2000 : Int), (32768 : Nat))] ++
              [((30000 : Int), (65535 : Nat))])).out =
          (culsynthProcess ampI16Step 48000 ()
              [((1000 : Int), (65535 : Nat)), ((-2000 : Int), (32768 : Nat))]).out ++
            (culsynthProcess ampI16Step 48000
                (culsynthProcess ampI16Step 48000 ()
                  [((1000 : Int), (65535 : Nat)), ((-2000 : Int), (32768 : Nat))]).state
                [((30000 : Int), (65535 : Nat))]).out) :=
  ⟨by decide,
    process_streaming_split ampI16Step 48000 ()
      [((1000 : Int), (65535 : Nat)), ((-2000 : Int), (32768 : Nat))]
      [((30000 : Int), (65535 : Nat))] (by decide)⟩

/-- Claim C7: the amplifier (both variants) at a supported sample rate is a
pure pointwise transform — the output buffer is the `map` of the per-sample
gain law over the zipped `(signal, gain)` input streams, so `out[i]` depends
only on `signal[i]` and `gain[i]` and on no instance state (the amplifier's
state type is `Unit`); and a zero signal sample yields a zero output for any
gain value, in both variants. -/
theorem amp_process_pointwise (sr : Nat) (h : supportedSR sr = true)
    (sig gain : List ℚ) (sig16 : List Int) (gain16 : List Nat) :
    (culsynth_amp_f32_process sr () (sig.zip gain)).out =
        (sig.zip gain).map (fun p => p.1 * p.2) ∧
      (culsynth_amp_i16_process sr () (sig16.zip gain16)).out =
        (sig16.zip gain16).map (fun p => satI16 ((p.1 * (p.2 : Int)) / 65536)) ∧
      (∀ g : ℚ, (ampF32Step () (0, g)).2 = 0) ∧
      (∀ g : Nat, (ampI16Step () (0, g)).2 = 0) := by
  have hf : ampF32Step = fun (_ : Unit) (i : ℚ × ℚ) => ((), i.1 * i.2) := rfl
  have hi : ampI16Step =
      fun (_ : Unit) (i : Int × Nat) => ((), satI16 ((i.1 * (i.2 : Int)) / 65536)) := rfl
  refine ⟨?_, ?_, ?_, ?_⟩
  · unfold culsynth_amp_f32_process culsynthProcess
    simp only [h, if_pos]
    rw [hf, runUnit_stateless]
  · unfold culsynth_amp_i16_process culsynthProcess
    simp only [h, if_pos]
    rw [hi, runUnit_stateless]
  · intro g
    simp [ampF32Step]
  · intro g
    simp [ampI16Step, satI16]

/-- Witness for C7 at rate `CULSYNTH_SR_441` with concrete two-frame
buffers. -/
theorem amp_process_pointwise_witness :
    supportedSR 44100 = true ∧
      ((culsynth_amp_f32_process 44100 ()
            (List.zip [(1 : ℚ), -2] [(1 : ℚ)/2, 3])).out =
          (List.zip [(1 : ℚ), -2] [(1 : ℚ)/2, 3]).map (fun p => p.1 * p.2) ∧
        (culsynth_amp_i16_process 44100 ()
            (List.zip [(16384 : Int), -32768] [(65535 : Nat), 32768])).out =
          (List.zip [(16384 : Int), -32768] [(65535 : Nat), 32768]).map
            (fun p => satI16 ((p.1 * (p.2 : Int)) / 65536)) ∧
        (∀ g : ℚ, (ampF32Step () (0, g)).2 = 0) ∧
        (∀ g : Nat, (ampI16Step () (0, g)).2 = 0)) :=
  ⟨by decide,
    amp_process_pointwise 44100 (by decide) [(1 : ℚ), -2] [(1 : ℚ)/2, 3]
      [(16384 : Int), -32768] [(65535 : Nat), 32768]⟩

/-! ## Envelope generator -/

/-- The ADSR stages of the envelope state machine (spec §4.2), plus the
implicit `Idle` stage before the first gate-on and after a completed
release. -/
inductive EnvStage
  | Idle
  | Attack
  | Decay
  | Sustain
  | Release
deriving DecidableEq, Repr

/-- The envelope's per-instance mutable state: current stage and current
output level (normalized to `[0, 1]`). -/
structure EnvState where
  stage : EnvStage
  level : ℚ
deriving DecidableEq, Repr

/-- Modelled from the spec: "Time parameters map to per-sample increments via
sample-rate-dependent step sizes"; the exact law is an open question of the
spec, so we fix a representative positive law with the spec's required
minimum-step guarantee (the increment never rounds to zero, so no stage can
stall). -/
def stepOf (sr : Nat) (t : ℚ) : ℚ := 1 / ((sr : ℚ) * max t 0 + 1)

theorem stepOf_pos (sr : Nat) (t : ℚ) : 0 < stepOf sr t := by
  unfold stepOf
  apply one_div_pos.mpr
  have h : (0 : ℚ) ≤ (sr : ℚ) * max t 0 :=
    mul_nonneg (by positivity) (le_max_right t 0)
  linarith

/-- Modelled from the spec (§4.2, floating variant): the per-sample ADSR
update behind `culsynth_env_f32_process`, whose body is absent from the
sources (the fixed-point variant, with its quantized minimum-step
arithmetic, is modelled separately by `envI16Step`).  Linear segments (the
spec leaves linear vs exponential to the implementer); the input frame is
`(gate, attack, decay, sustain, release)`, re-read every sample.  Gate high:
`Idle`/`Release` (a gate rise) restart Attack from the *current* level,
Attack ramps toward full scale and hands over to Decay on reaching it, Decay
ramps toward the sustain level and hands over to Sustain on reaching it,
Sustain holds the (clamped) sustain parameter.  Gate low: every stage ramps
toward zero and returns to Idle on reaching it. -/
def envStep (sr : Nat) (st : EnvState) (i : Bool × ℚ × ℚ × ℚ × ℚ) :
    EnvState × ℚ :=
  match i with
  | (gate, a, d, s, r) =>
    if gate then
      match st.stage with
      | .Decay =>
        let tgt := max 0 (min s 1)
        let lvl := max (st.level - stepOf sr d) tgt
        if lvl ≤ tgt then (⟨.Sustain, lvl⟩, lvl) else (⟨.Decay, lvl⟩, lvl)
      | .Sustain =>
        let lvl := max 0 (min s 1)
        (⟨.Sustain, lvl⟩, lvl)
      | _ =>
        let lvl := min (st.level + stepOf sr a) 1
        if 1 ≤ lvl then (⟨.Decay, lvl⟩, lvl) else (⟨.Attack, lvl⟩, lvl)
    else
      let lvl := max (st.level - stepOf sr r) 0
      if lvl ≤ 0 then (⟨.Idle, lvl⟩, lvl) else (⟨.Release, lvl⟩, lvl)

/-- The reachable-state invariant of the envelope under a fixed legal sustain
parameter: the level is normalized, in `Decay` the level has not yet fallen
below the sustain target, and in `Sustain` the level sits exactly at it. -/
def EnvInv (s : ℚ) (st : EnvState) : Prop :=
  0 ≤ st.level ∧ st.level ≤ 1 ∧
    (st.stage = .Decay → s ≤ st.level) ∧ (st.stage = .Sustain → st.level = s)

theorem envStep_out_eq (sr : Nat) (st : EnvState) (i : Bool × ℚ × ℚ × ℚ × ℚ) :
    (envStep sr st i).2 = (envStep sr st i).1.level := by
  rcases i with ⟨gate, a, d, s, r⟩
  cases gate <;> cases h : st.stage <;> simp only [envStep, h] <;> split_ifs <;> rfl

theorem envStep_inv (sr : Nat) (a d s r : ℚ) (gate : Bool) (st : EnvState)
    (hs0 : 0 ≤ s) (hs1 : s ≤ 1) (hinv : EnvInv s st) :
    EnvInv s (envStep sr st (gate, a, d, s, r)).1 := by
  obtain ⟨h0, h1, hD, hS⟩ := hinv
  have ha := stepOf_pos sr a
  have hd := stepOf_pos sr d
  have hr := stepOf_pos sr r
  have hts : max 0 (min s 1) = s := by
    rw [min_eq_left hs1, max_eq_right hs0]
  cases gate with
  | false =>
    simp only [envStep, Bool.false_eq_true, if_false]
    split_ifs with hif
    · exact ⟨le_max_right _ _, max_le (by linarith) (by norm_num),
        fun hc => EnvStage.noConfusion hc, fun hc => EnvStage.noConfusion hc⟩
    · exact ⟨le_max_right _ _, max_le (by linarith) (by norm_num),
        fun hc => EnvStage.noConfusion hc, fun hc => EnvStage.noConfusion hc⟩
  | true =>
    cases h : st.stage with
    | Decay =>
      simp only [envStep, h, hts, eq_self_iff_true, if_true]
      split_ifs with hif
      · exact ⟨le_trans hs0 (le_max_right _ _), max_le (by linarith) hs1,
          fun hc => EnvStage.noConfusion hc,
          fun _ => le_antisymm hif (le_max_right _ _)⟩
      · exact ⟨le_trans hs0 (le_max_right _ _), max_le (by linarith) hs1,
          fun _ => le_max_right _ _, fun hc => EnvStage.noConfusion hc⟩
    | Sustain =>
      simp only [envStep, h, hts, eq_self_iff_true, if_true]
      exact ⟨hs0, hs1, fun hc => EnvStage.noConfusion hc, fun _ => rfl⟩
    | Idle =>
      simp only [envStep, h, eq_self_iff_true, if_true]
      split_ifs with hif
      · exact ⟨le_min (by linarith) (by norm_num), min_le_right _ _,
          fun _ => by linarith, fun hc => EnvStage.noConfusion hc⟩
      · exact ⟨le_min (by linarith) (by norm_num), min_le_right _ _,
          fun hc => EnvStage.noConfusion hc, fun hc => EnvStage.noConfusion hc⟩
    | Attack =>
      simp only [envStep, h, eq_self_iff_true, if_true]
      split_ifs with hif
      · exact ⟨le_min (by linarith) (by norm_num), min_le_right _ _,
          fun _ => by linarith, fun hc => EnvStage.noConfusion hc⟩
      · exact ⟨le_min (by linarith) (by norm_num), min_le_right _ _,
          fun hc => EnvStage.noConfusion hc, fun hc => EnvStage.noConfusion hc⟩
    | Release =>
      simp only [envStep, h, eq_self_iff_true, if_true]
      split_ifs with hif
      · exact ⟨le_min (by linarith) (by norm_num), min_le_right _ _,
          fun _ => by linarith, fun hc => EnvStage.noConfusion hc⟩
      · exact ⟨le_min (by linarith) (by norm_num), min_le_right _ _,
          fun hc => EnvStage.noConfusion hc, fun hc => EnvStage.noConfusion hc⟩

/-- Combined invariant/output induction over a run: a state predicate `Q`
preserved by every step, together with an output predicate `P` every step
guarantees from `Q`, yields `P` for every output frame and `Q` for the final
state. -/
theorem runUnit_out_forall_inv {S I O : Type} (step : S → I → S × O)
    {Q : S → Prop} {P : O → Prop}
    (hstep : ∀ s i, Q s → Q (step s i).1 ∧ P (step s i).2) :
    ∀ (s : S) (is : List I), Q s →
      (∀ o ∈ (runUnit step s is).2, P o) ∧ Q (runUnit step s is).1 := by
  intro s is
  induction is generalizing s with
  | nil => intro h; exact ⟨by simp, by simpa using h⟩
  | cons i is ih =>
    intro h
    obtain ⟨hq, hp⟩ := hstep s i h
    obtain ⟨hall, hq2⟩ := ih _ hq
    refine ⟨?_, hq2⟩
    intro o ho
    simp only [runUnit_cons, List.mem_cons] at ho
    rcases ho with h2 | h2
    · exact h2 ▸ hp
    · exact hall o h2

/-- With the gate high in `Idle`, `Attack` or `Release` (the latter two gate
rises, restarting Attack), the level does not decrease and rises by at most
one attack step: the attack ramp is non-decreasing and continuous, and a
retrigger restarts from the *current* level. -/
theorem envStep_attack_mono (sr : Nat) (a d s r : ℚ) (st : EnvState)
    (h1 : st.level ≤ 1)
    (hstage : st.stage = .Idle ∨ st.stage = .Attack ∨ st.stage = .Release) :
    st.level ≤ (envStep sr st (true, a, d, s, r)).1.level ∧
      (envStep sr st (true, a, d, s, r)).1.level ≤ st.level + stepOf sr a := by
  have ha := stepOf_pos sr a
  rcases hstage with h | h | h <;>
    · simp only [envStep, h, eq_self_iff_true, if_true]
      split_ifs with hif <;>
        exact ⟨le_min (by linarith) h1, min_le_left _ _⟩

/-- A gate rise while in `Release` moves the machine back into the attack
ramp (directly to `Decay` only when a single attack step already reaches
full scale). -/
theorem envStep_release_retrigger (sr : Nat) (a d s r : ℚ) (st : EnvState)
    (h : st.stage = .Release) :
    (envStep sr st (true, a, d, s, r)).1.stage = .Attack ∨
      (envStep sr st (true, a, d, s, r)).1.stage = .Decay := by
  simp only [envStep, h, eq_self_iff_true, if_true]
  split_ifs with hif
  · exact Or.inr rfl
  · exact Or.inl rfl

/-- In `Decay` with the gate high, the level is non-increasing, never falls
below the sustain target, and falls by at most one decay step. -/
theorem envStep_decay_mono (sr : Nat) (a d s r : ℚ) (st : EnvState)
    (hs0 : 0 ≤ s) (hs1 : s ≤ 1) (h : st.stage = .Decay) (hDl : s ≤ st.level) :
    s ≤ (envStep sr st (true, a, d, s, r)).1.level ∧
      (envStep sr st (true, a, d, s, r)).1.level ≤ st.level ∧
      st.level - stepOf sr d ≤ (envStep sr st (true, a, d, s, r)).1.level := by
  have hd := stepOf_pos sr d
  have hts : max 0 (min s 1) = s := by rw [min_eq_left hs1, max_eq_right hs0]
  simp only [envStep, h, hts, eq_self_iff_true, if_true]
  split_ifs with hif <;>
    exact ⟨le_max_right _ _, max_le (by linarith) hDl, le_max_left _ _⟩

/-- In `Sustain` with the gate high and the level sitting at the (legal)
sustain parameter, the level is constant. -/
theorem envStep_sustain_const (sr : Nat) (a d s r : ℚ) (st : EnvState)
    (hs0 : 0 ≤ s) (hs1 : s ≤ 1) (h : st.stage = .Sustain) (hSl : st.level = s) :
    (envStep sr st (true, a, d, s, r)).1.level = st.level := by
  have hts : max 0 (min s 1) = s := by rw [min_eq_left hs1, max_eq_right hs0]
  simp only [envStep, h, hts, eq_self_iff_true, if_true]
  exact hSl.symm

/-- With the gate low, the level is non-increasing, never falls below zero,
and falls by at most one release step — the release ramp toward zero. -/
theorem envStep_gate_low_mono (sr : Nat) (a d s r : ℚ) (st : EnvState)
    (h0 : 0 ≤ st.level) :
    0 ≤ (envStep sr st (false, a, d, s, r)).1.level ∧
      (envStep sr st (false, a, d, s, r)).1.level ≤ st.level ∧
      st.level - stepOf sr r ≤ (envStep sr st (false, a, d, s, r)).1.level := by
  have hr := stepOf_pos sr r
  simp only [envStep, Bool.false_eq_true, if_false]
  split_ifs with hif <;>
    exact ⟨le_max_right _ _, max_le (by linarith) h0, le_max_left _ _⟩

/-- The fixed-point envelope's state: stage plus an unsigned 16-bit level. -/
structure EnvStateI where
  stage : EnvStage
  level : Nat
deriving DecidableEq, Repr

/-- Modelled from the spec (§4.2): the fixed-point per-sample level step
derived from a 16-bit time parameter at a sample rate, with the spec's
required minimum-step guarantee — the computed delta never rounds to zero,
so no stage can stall. -/
def stepOfI16 (sr : Nat) (t : Nat) : Nat := max 1 (65535 / (sr * t / 65536 + 1))

/-- Modelled from the spec (§4.2, fixed-point variant): the ADSR update
behind `culsynth_env_i16_process`, whose body is absent from the sources.
Same state machine as the rational model, over unsigned 16-bit levels with
clamping arithmetic: every written level is clamped into `[0, 65535]`
(`Nat` subtraction already saturates at zero). -/
def envI16Step (sr : Nat) (st : EnvStateI) (i : Bool × Nat × Nat × Nat × Nat) :
    EnvStateI × Nat :=
  match i with
  | (gate, a, d, s, r) =>
    if gate then
      match st.stage with
      | .Decay =>
        let tgt := min s 65535
        let lvl := max (min st.level 65535 - stepOfI16 sr d) tgt
        if lvl ≤ tgt then (⟨.Sustain, lvl⟩, lvl) else (⟨.Decay, lvl⟩, lvl)
      | .Sustain =>
        let lvl := min s 65535
        (⟨.Sustain, lvl⟩, lvl)
      | _ =>
        let lvl := min (st.level + stepOfI16 sr a) 65535
        if 65535 ≤ lvl then (⟨.Decay, lvl⟩, lvl) else (⟨.Attack, lvl⟩, lvl)
    else
      let lvl := min st.level 65535 - stepOfI16 sr r
      if lvl = 0 then (⟨.Idle, lvl⟩, lvl) else (⟨.Release, lvl⟩, lvl)

/-- Modelled from the spec: `culsynth_env_i16_process`, whose body is absent
from the sources. -/
def culsynth_env_i16_process (sr : Nat) (s : EnvStateI)
    (input : List (Bool × Nat × Nat × Nat × Nat)) : ProcResult EnvStateI Nat :=
  culsynthProcess (envI16Step sr) sr s input

theorem envI16Step_out_le (sr : Nat) (st : EnvStateI)
    (i : Bool × Nat × Nat × Nat × Nat) : (envI16Step sr st i).2 ≤ 65535 := by
  rcases i with ⟨gate, a, d, s, r⟩
  cases gate <;> cases h : st.stage <;>
      simp only [envI16Step, h, Bool.false_eq_true, if_false, eq_self_iff_true,
        if_true] <;>
    (try split_ifs with hif)
  all_goals
    first
      | exact le_trans (Nat.sub_le _ _) (min_le_right _ _)
      | exact min_le_right _ _
      | exact max_le (le_trans (Nat.sub_le _ _) (min_le_right _ _))
          (min_le_right _ _)

theorem stepOfI16_pos (sr t : Nat) : 1 ≤ stepOfI16 sr t := le_max_left _ _

/-- The reachable-state invariant of the fixed-point envelope under a fixed
sustain parameter: the level is within the unsigned 16-bit range, in `Decay`
the level has not yet fallen below the (clamped) sustain target, and in
`Sustain` the level sits exactly at it. -/
def EnvInvI (s : Nat) (st : EnvStateI) : Prop :=
  st.level ≤ 65535 ∧ (st.stage = .Decay → min s 65535 ≤ st.level) ∧
    (st.stage = .Sustain → st.level = min s 65535)

theorem envI16Step_out_eq (sr : Nat) (st : EnvStateI)
    (i : Bool × Nat × Nat × Nat × Nat) :
    (envI16Step sr st i).2 = (envI16Step sr st i).1.level := by
  rcases i with ⟨gate, a, d, s, r⟩
  cases gate <;> cases h : st.stage <;>
      simp only [envI16Step, h, Bool.false_eq_true, if_false, eq_self_iff_true,
        if_true] <;>
    (try split_ifs) <;> rfl

theorem envI16Step_inv (sr : Nat) (a d s r : Nat) (gate : Bool)
    (st : EnvStateI) (hinv : EnvInvI s st) :
    EnvInvI s (envI16Step sr st (gate, a, d, s, r)).1 := by
  obtain ⟨h1, hD, hS⟩ := hinv
  have ha := stepOfI16_pos sr a
  have hd := stepOfI16_pos sr d
  have hr := stepOfI16_pos sr r
  cases gate with
  | false =>
    simp only [envI16Step, Bool.false_eq_true, if_false]
    split_ifs with hif <;>
      exact ⟨by dsimp only; omega, fun hc => EnvStage.noConfusion hc,
        fun hc => EnvStage.noConfusion hc⟩
  | true =>
    cases h : st.stage with
    | Decay =>
      have hDl := hD h
      simp only [envI16Step, h, eq_self_iff_true, if_true]
      split_ifs with hif
      · exact ⟨by dsimp only; omega, fun hc => EnvStage.noConfusion hc, fun _ => by dsimp only; omega⟩
      · exact ⟨by dsimp only; omega, fun _ => le_max_right _ _,
          fun hc => EnvStage.noConfusion hc⟩
    | Sustain =>
      simp only [envI16Step, h, eq_self_iff_true, if_true]
      exact ⟨by dsimp only; omega, fun hc => EnvStage.noConfusion hc, fun _ => rfl⟩
    | Idle =>
      simp only [envI16Step, h, eq_self_iff_true, if_true]
      split_ifs with hif
      · exact ⟨by dsimp only; omega, fun _ => by dsimp only; omega, fun hc => EnvStage.noConfusion hc⟩
      · exact ⟨by dsimp only; omega, fun hc => EnvStage.noConfusion hc,
          fun hc => EnvStage.noConfusion hc⟩
    | Attack =>
      simp only [envI16Step, h, eq_self_iff_true, if_true]
      split_ifs with hif
      · exact ⟨by dsimp only; omega, fun _ => by dsimp only; omega, fun hc => EnvStage.noConfusion hc⟩
      · exact ⟨by dsimp only; omega, fun hc => EnvStage.noConfusion hc,
          fun hc => EnvStage.noConfusion hc⟩
    | Release =>
      simp only [envI16Step, h, eq_self_iff_true, if_true]
      split_ifs with hif
      · exact ⟨by dsimp only; omega, fun _ => by dsimp only; omega, fun hc => EnvStage.noConfusion hc⟩
      · exact ⟨by dsimp only; omega, fun hc => EnvStage.noConfusion hc,
          fun hc => EnvStage.noConfusion hc⟩

/-- Fixed-point attack ramp: with the gate high in `Idle`, `Attack` or
`Release`, the level does not decrease, rises by at most one attack step,
and — the spec's quantized minimum-step guarantee — *strictly* rises
whenever full scale has not been reached: the quantized delta never rounds
to zero, so the attack never stalls. -/
theorem envI16Step_attack_mono (sr : Nat) (a d s r : Nat) (st : EnvStateI)
    (h1 : st.level ≤ 65535)
    (hstage : st.stage = .Idle ∨ st.stage = .Attack ∨ st.stage = .Release) :
    st.level ≤ (envI16Step sr st (true, a, d, s, r)).1.level ∧
      (envI16Step sr st (true, a, d, s, r)).1.level ≤
        st.level + stepOfI16 sr a ∧
      (st.level < 65535 →
        st.level < (envI16Step sr st (true, a, d, s, r)).1.level) := by
  have ha := stepOfI16_pos sr a
  rcases hstage with h | h | h <;>
    · simp only [envI16Step, h, eq_self_iff_true, if_true]
      split_ifs with hif <;> exact ⟨by dsimp only; omega, by dsimp only; omega, fun hlt => by dsimp only; omega⟩

/-- A gate rise while the fixed-point envelope is in `Release` restarts the
attack ramp. -/
theorem envI16Step_release_retrigger (sr : Nat) (a d s r : Nat)
    (st : EnvStateI) (h : st.stage = .Release) :
    (envI16Step sr st (true, a, d, s, r)).1.stage = .Attack ∨
      (envI16Step sr st (true, a, d, s, r)).1.stage = .Decay := by
  simp only [envI16Step, h, eq_self_iff_true, if_true]
  split_ifs with hif
  · exact Or.inr rfl
  · exact Or.inl rfl

/-- Fixed-point decay ramp: non-increasing, never below the sustain target,
by at most one decay step, and strictly decreasing while above the target
(minimum-step guarantee — no stalled decay). -/
theorem envI16Step_decay_mono (sr : Nat) (a d s r : Nat) (st : EnvStateI)
    (h1 : st.level ≤ 65535) (h : st.stage = .Decay)
    (hDl : min s 65535 ≤ st.level) :
    min s 65535 ≤ (envI16Step sr st (true, a, d, s, r)).1.level ∧
      (envI16Step sr st (true, a, d, s, r)).1.level ≤ st.level ∧
      st.level - stepOfI16 sr d ≤ (envI16Step sr st (true, a, d, s, r)).1.level ∧
      (min s 65535 < st.level →
        (envI16Step sr st (true, a, d, s, r)).1.level < st.level) := by
  have hd := stepOfI16_pos sr d
  simp only [envI16Step, h, eq_self_iff_true, if_true]
  split_ifs with hif <;> exact ⟨by dsimp only; omega, by dsimp only; omega, by dsimp only; omega, fun hlt => by dsimp only; omega⟩

/-- Fixed-point sustain: with the level sitting at the clamped sustain
parameter, the level is constant. -/
theorem envI16Step_sustain_const (sr : Nat) (a d s r : Nat) (st : EnvStateI)
    (h : st.stage = .Sustain) (hSl : st.level = min s 65535) :
    (envI16Step sr st (true, a, d, s, r)).1.level = st.level := by
  simp only [envI16Step, h, eq_self_iff_true, if_true]
  omega

/-- Fixed-point release ramp: with the gate low the level is non-increasing,
falls by at most one release step, and strictly falls while nonzero
(minimum-step guarantee — the release always completes). -/
theorem envI16Step_gate_low_mono (sr : Nat) (a d s r : Nat) (st : EnvStateI)
    (h1 : st.level ≤ 65535) :
    (envI16Step sr st (false, a, d, s, r)).1.level ≤ st.level ∧
      st.level - stepOfI16 sr r ≤ (envI16Step sr st (false, a, d, s, r)).1.level ∧
      (0 < st.level →
        (envI16Step sr st (false, a, d, s, r)).1.level < st.level) := by
  have hr := stepOfI16_pos sr r
  simp only [envI16Step, Bool.false_eq_true, if_false]
  split_ifs with hif <;> exact ⟨by dsimp only; omega, by dsimp only; omega, fun h0 => by dsimp only; omega⟩

/-- Claim C5: the modelled ADSR envelope, in both numeric variants, with a
fixed legal sustain level, from any reachable state.  Floating variant
(`envStep`, over ℚ): the reachable-state invariant is preserved; the emitted
sample equals the new level; with gate high the level is non-decreasing
through Attack (including a restart from `Idle` or a retrigger from
`Release`, which continues from the current level and moves by at most one
attack step — continuity); a gate rise in `Release` restarts the attack
ramp; in `Decay` the level is non-increasing toward (and never below) the
sustain level, moving by at most one decay step; in `Sustain` the level is
constant; with gate low the level is non-increasing toward (and never below)
zero, moving by at most one release step; and along any gate sequence with
constant parameters every emitted level stays within `[0, 1]`.  Fixed-point
variant (`envI16Step`, over quantized 16-bit levels): the same
per-stage monotonicity, continuity bounds, retrigger-from-current-level,
constant Sustain and `[0, 65535]` sequence bound, and additionally the
spec's quantized minimum-step guarantee — the Attack strictly rises below
full scale, Decay strictly falls above the sustain target, and the release
strictly falls while nonzero, so no stage ever stalls on a delta that
rounds to zero. -/
theorem env_adsr_monotone_continuous (sr : Nat) (a d s r : ℚ) (gate : Bool)
    (st : EnvState) (hs0 : 0 ≤ s) (hs1 : s ≤ 1) (hinv : EnvInv s st)
    (ai di si ri : Nat) (gi : Bool) (sti : EnvStateI)
    (hinvi : EnvInvI si sti) :
    EnvInv s (envStep sr st (gate, a, d, s, r)).1 ∧
      (envStep sr st (gate, a, d, s, r)).2 =
        (envStep sr st (gate, a, d, s, r)).1.level ∧
      (gate = true →
        (st.stage = .Idle ∨ st.stage = .Attack ∨ st.stage = .Release) →
        st.level ≤ (envStep sr st (gate, a, d, s, r)).1.level ∧
          (envStep sr st (gate, a, d, s, r)).1.level ≤ st.level + stepOf sr a) ∧
      (gate = true → st.stage = .Release →
        (envStep sr st (gate, a, d, s, r)).1.stage = .Attack ∨
          (envStep sr st (gate, a, d, s, r)).1.stage = .Decay) ∧
      (gate = true → st.stage = .Decay →
        s ≤ (envStep sr st (gate, a, d, s, r)).1.level ∧
          (envStep sr st (gate, a, d, s, r)).1.level ≤ st.level ∧
          st.level - stepOf sr d ≤ (envStep sr st (gate, a, d, s, r)).1.level) ∧
      (gate = true → st.stage = .Sustain →
        (envStep sr st (gate, a, d, s, r)).1.level = st.level) ∧
      (gate = false →
        0 ≤ (envStep sr st (gate, a, d, s, r)).1.level ∧
          (envStep sr st (gate, a, d, s, r)).1.level ≤ st.level ∧
          st.level - stepOf sr r ≤ (envStep sr st (gate, a, d, s, r)).1.level) ∧
      (∀ gates : List Bool,
        ∀ lvl ∈ (runUnit (fun q g => envStep sr q (g, a, d, s, r)) st gates).2,
          0 ≤ lvl ∧ lvl ≤ 1) ∧
      EnvInvI si (envI16Step sr sti (gi, ai, di, si, ri)).1 ∧
      (envI16Step sr sti (gi, ai, di, si, ri)).2 =
        (envI16Step sr sti (gi, ai, di, si, ri)).1.level ∧
      (gi = true →
        (sti.stage = .Idle ∨ sti.stage = .Attack ∨ sti.stage = .Release) →
        sti.level ≤ (envI16Step sr sti (gi, ai, di, si, ri)).1.level ∧
          (envI16Step sr sti (gi, ai, di, si, ri)).1.level ≤
            sti.level + stepOfI16 sr ai ∧
          (sti.level < 65535 →
            sti.level < (envI16Step sr sti (gi, ai, di, si, ri)).1.level)) ∧
      (gi = true → sti.stage = .Release →
        (envI16Step sr sti (gi, ai, di, si, ri)).1.stage = .Attack ∨
          (envI16Step sr sti (gi, ai, di, si, ri)).1.stage = .Decay) ∧
      (gi = true → sti.stage = .Decay →
        min si 65535 ≤ (envI16Step sr sti (gi, ai, di, si, ri)).1.level ∧
          (envI16Step sr sti (gi, ai, di, si, ri)).1.level ≤ sti.level ∧
          sti.level - stepOfI16 sr di ≤
            (envI16Step sr sti (gi, ai, di, si, ri)).1.level ∧
          (min si 65535 < sti.level →
            (envI16Step sr sti (gi, ai, di, si, ri)).1.level < sti.level)) ∧
      (gi = true → sti.stage = .Sustain →
        (envI16Step sr sti (gi, ai, di, si, ri)).1.level = sti.level) ∧
      (gi = false →
        (envI16Step sr sti (gi, ai, di, si, ri)).1.level ≤ sti.level ∧
          sti.level - stepOfI16 sr ri ≤
            (envI16Step sr sti (gi, ai, di, si, ri)).1.level ∧
          (0 < sti.level →
            (envI16Step sr sti (gi, ai, di, si, ri)).1.level < sti.level)) ∧
      (∀ gatesi : List Bool,
        ∀ lvl ∈ (runUnit (fun q g => envI16Step sr q (g, ai, di, si, ri))
            sti gatesi).2,
          lvl ≤ 65535) := by
  refine ⟨envStep_inv sr a d s r gate st hs0 hs1 hinv,
    envStep_out_eq sr st _, ?_, ?_, ?_, ?_, ?_, ?_,
    envI16Step_inv sr ai di si ri gi sti hinvi,
    envI16Step_out_eq sr sti _, ?_, ?_, ?_, ?_, ?_, ?_⟩
  · rintro rfl hstage
    exact envStep_attack_mono sr a d s r st hinv.2.1 hstage
  · rintro rfl h
    exact envStep_release_retrigger sr a d s r st h
  · rintro rfl h
    exact envStep_decay_mono sr a d s r st hs0 hs1 h (hinv.2.2.1 h)
  · rintro rfl h
    exact envStep_sustain_const sr a d s r st hs0 hs1 h (hinv.2.2.2 h)
  · rintro rfl
    exact envStep_gate_low_mono sr a d s r st hinv.1
  · intro gates
    refine (runUnit_out_forall_inv (fun q g => envStep sr q (g, a, d, s, r))
      (Q := EnvInv s) (P := fun lvl => 0 ≤ lvl ∧ lvl ≤ 1) ?_ st gates hinv).1
    intro q g hq
    have hinv2 := envStep_inv sr a d s r g q hs0 hs1 hq
    have hout := envStep_out_eq sr q (g, a, d, s, r)
    exact ⟨hinv2, by rw [hout]; exact ⟨hinv2.1, hinv2.2.1⟩⟩
  · rintro rfl hstage
    exact envI16Step_attack_mono sr ai di si ri sti hinvi.1 hstage
  · rintro rfl h
    exact envI16Step_release_retrigger sr ai di si ri sti h
  · rintro rfl h
    exact envI16Step_decay_mono sr ai di si ri sti hinvi.1 h (hinvi.2.1 h)
  · rintro rfl h
    exact envI16Step_sustain_const sr ai di si ri sti h (hinvi.2.2 h)
  · rintro rfl
    exact envI16Step_gate_low_mono sr ai di si ri sti hinvi.1
  · intro gatesi
    exact runUnit_out_forall
      (fun q g => envI16Step_out_le sr q (g, ai, di, si, ri)) sti gatesi
/-- Witness for C5 at the concrete configuration: 48 kHz; floating variant
with unit attack / decay / release parameters, sustain ½, gate high, from
the zero-initialized `Idle` state; fixed-point variant with attack 2,
decay 3, sustain 30000, release 4, gate high, from the zero-initialized
`Idle` state. -/
theorem env_adsr_monotone_continuous_witness :
    ((0 : ℚ) ≤ 1/2 ∧ (1 : ℚ)/2 ≤ 1 ∧ EnvInv (1/2) ⟨.Idle, 0⟩ ∧
        EnvInvI 30000 ⟨.Idle, 0⟩) ∧
      (EnvInv (1/2) (envStep 48000 ⟨.Idle, 0⟩ (true, 1, 1, 1/2, 1)).1 ∧
        (envStep 48000 ⟨.Idle, 0⟩ (true, 1, 1, 1/2, 1)).2 =
          (envStep 48000 ⟨.Idle, 0⟩ (true, 1, 1, 1/2, 1)).1.level ∧
        (true = true →
          ((EnvStage.Idle = .Idle ∨ EnvStage.Idle = .Attack ∨
              EnvStage.Idle = .Release)) →
          (0 : ℚ) ≤ (envStep 48000 ⟨.Idle, 0⟩ (true, 1, 1, 1/2, 1)).1.level ∧
            (envStep 48000 ⟨.Idle, 0⟩ (true, 1, 1, 1/2, 1)).1.level ≤
              0 + stepOf 48000 1) ∧
        (true = true → EnvStage.Idle = .Release →
          (envStep 48000 ⟨.Idle, 0⟩ (true, 1, 1, 1/2, 1)).1.stage = .Attack ∨
            (envStep 48000 ⟨.Idle, 0⟩ (true, 1, 1, 1/2, 1)).1.stage = .Decay) ∧
        (true = true → EnvStage.Idle = .Decay →
          (1 : ℚ)/2 ≤ (envStep 48000 ⟨.Idle, 0⟩ (true, 1, 1, 1/2, 1)).1.level ∧
            (envStep 48000 ⟨.Idle, 0⟩ (true, 1, 1, 1/2, 1)).1.level ≤ 0 ∧
            0 - stepOf 48000 1 ≤
              (envStep 48000 ⟨.Idle, 0⟩ (true, 1, 1, 1/2, 1)).1.level) ∧
        (true = true → EnvStage.Idle = .Sustain →
          (envStep 48000 ⟨.Idle, 0⟩ (true, 1, 1, 1/2, 1)).1.level = 0) ∧
        (true = false →
          (0 : ℚ) ≤ (envStep 48000 ⟨.Idle, 0⟩ (true, 1, 1, 1/2, 1)).1.level ∧
            (envStep 48000 ⟨.Idle, 0⟩ (true, 1, 1, 1/2, 1)).1.level ≤ 0 ∧
            0 - stepOf 48000 1 ≤
              (envStep 48000 ⟨.Idle, 0⟩ (true, 1, 1, 1/2, 1)).1.level) ∧
        (∀ gates : List Bool,
          ∀ lvl ∈ (runUnit (fun q g => envStep 48000 q (g, 1, 1, 1/2, 1))
              (⟨.Idle, 0⟩ : EnvState) gates).2,
            0 ≤ lvl ∧ lvl ≤ 1) ∧
        EnvInvI 30000 (envI16Step 48000 ⟨.Idle, 0⟩ (true, 2, 3, 30000, 4)).1 ∧
        (envI16Step 48000 ⟨.Idle, 0⟩ (true, 2, 3, 30000, 4)).2 =
          (envI16Step 48000 ⟨.Idle, 0⟩ (true, 2, 3, 30000, 4)).1.level ∧
        (true = true →
          ((EnvStage.Idle = .Idle ∨ EnvStage.Idle = .Attack ∨
              EnvStage.Idle = .Release)) →
          0 ≤ (envI16Step 48000 ⟨.Idle, 0⟩ (true, 2, 3, 30000, 4)).1.level ∧
            (envI16Step 48000 ⟨.Idle, 0⟩ (true, 2, 3, 30000, 4)).1.level ≤
              0 + stepOfI16 48000 2 ∧
            (0 < 65535 →
              0 < (envI16Step 48000 ⟨.Idle, 0⟩ (true, 2, 3, 30000, 4)).1.level)) ∧
        (true = true → EnvStage.Idle = .Release →
          (envI16Step 48000 ⟨.Idle, 0⟩ (true, 2, 3, 30000, 4)).1.stage = .Attack ∨
            (envI16Step 48000 ⟨.Idle, 0⟩ (true, 2, 3, 30000, 4)).1.stage = .Decay) ∧
        (true = true → EnvStage.Idle = .Decay →
          min 30000 65535 ≤
              (envI16Step 48000 ⟨.Idle, 0⟩ (true, 2, 3, 30000, 4)).1.level ∧
            (envI16Step 48000 ⟨.Idle, 0⟩ (true, 2, 3, 30000, 4)).1.level ≤ 0 ∧
            0 - stepOfI16 48000 3 ≤
              (envI16Step 48000 ⟨.Idle, 0⟩ (true, 2, 3, 30000, 4)).1.level ∧
            (min 30000 65535 < 0 →
              (envI16Step 48000 ⟨.Idle, 0⟩ (true, 2, 3, 30000, 4)).1.level < 0)) ∧
        (true = true → EnvStage.Idle = .Sustain →
          (envI16Step 48000 ⟨.Idle, 0⟩ (true, 2, 3, 30000, 4)).1.level = 0) ∧
        (true = false →
          (envI16Step 48000 ⟨.Idle, 0⟩ (true, 2, 3, 30000, 4)).1.level ≤ 0 ∧
            0 - stepOfI16 48000 4 ≤
              (envI16Step 48000 ⟨.Idle, 0⟩ (true, 2, 3, 30000, 4)).1.level ∧
            (0 < 0 →
              (envI16Step 48000 ⟨.Idle, 0⟩ (true, 2, 3, 30000, 4)).1.level < 0)) ∧
        (∀ gatesi : List Bool,
          ∀ lvl ∈ (runUnit (fun q g => envI16Step 48000 q (g, 2, 3, 30000, 4))
              (⟨.Idle, 0⟩ : EnvStateI) gatesi).2,
            lvl ≤ 65535)) :=
  ⟨⟨by norm_num, by norm_num,
      ⟨le_refl 0, by norm_num, fun hc => EnvStage.noConfusion hc,
        fun hc => EnvStage.noConfusion hc⟩,
      ⟨Nat.zero_le 65535, fun hc => EnvStage.noConfusion hc,
        fun hc => EnvStage.noConfusion hc⟩⟩,
    env_adsr_monotone_continuous 48000 1 1 (1/2) 1 true ⟨.Idle, 0⟩
      (by norm_num) (by norm_num)
      ⟨le_refl 0, by norm_num, fun hc => EnvStage.noConfusion hc,
        fun hc => EnvStage.noConfusion hc⟩
      2 3 30000 4 true ⟨.Idle, 0⟩
      ⟨Nat.zero_le 65535, fun hc => EnvStage.noConfusion hc,
        fun hc => EnvStage.noConfusion hc⟩⟩

/-! ## State-variable filter -/

/-- Clamp a rational into `[lo, hi]`. -/
def clampQ (lo hi x : ℚ) : ℚ := max lo (min hi x)

theorem clampQ_lower (lo hi x : ℚ) : lo ≤ clampQ lo hi x := le_max_left _ _

theorem clampQ_upper {lo hi : ℚ} (h : lo ≤ hi) (x : ℚ) : clampQ lo hi x ≤ hi :=
  max_le h (min_le_left _ _)

/-- The filter's per-instance state: the two integrator accumulators of the
two-pole state-variable topology (spec §4.3). -/
structure FiltState where
  low : ℚ
  band : ℚ
deriving DecidableEq, Repr

/-- Modelled from the spec (§4.3, floating variant): the per-sample
state-variable filter update behind `culsynth_filt_f32_process`, whose body
is absent from the sources.  Chamberlin topology — high = input minus low
minus damped band, then the band and low integrators each advance by the
cutoff coefficient times the previous output.  Per the spec's stability
constraint ("cutoff frequency must be clamped so the internal stable-filter
coefficient never drives the recursive integrators into divergence" and the
clamping design invariant of §7(c)), the cutoff coefficient is clamped to
`[0, 1]` and every computed value is clamped to the normalized signal range
`[-1, 1]`.  The input frame is `(input, cutoff, resonance)`, re-read every
sample. -/
def filtStep (st : FiltState) (i : ℚ × ℚ × ℚ) : FiltState × (ℚ × ℚ × ℚ) :=
  let f := clampQ 0 1 i.2.1
  let q := max 0 i.2.2
  let hi := clampQ (-1) 1 (i.1 - st.low - q * st.band)
  let bd := clampQ (-1) 1 (st.band + f * hi)
  let lo := clampQ (-1) 1 (st.low + f * bd)
  (⟨lo, bd⟩, (lo, bd, hi))

/-- Modelled from the spec: `culsynth_filt_f32_process`, whose body is
absent from the sources — sample-rate check plus the streamed filter
update. -/
def culsynth_filt_f32_process (sr : Nat) (s : FiltState)
    (input : List (ℚ × ℚ × ℚ)) : ProcResult FiltState (ℚ × ℚ × ℚ) :=
  culsynthProcess filtStep sr s input

/-- The fixed-point filter's integrator state. -/
structure FiltStateI where
  low : Int
  band : Int
deriving DecidableEq, Repr

/-- Modelled from the spec (§4.3, fixed-point variant): the per-sample
update behind `culsynth_filt_i16_process`, whose body is absent from the
sources.  Same Chamberlin topology over signed 16-bit samples with unsigned
16-bit cutoff/resonance coefficients scaled by 1/65536; every intermediate
result is saturated into the signed 16-bit range, per the spec's §7(c)
saturation invariant. -/
def filtI16Step (st : FiltStateI) (i : Int × Nat × Nat) :
    FiltStateI × (Int × Int × Int) :=
  let hi := satI16 (i.1 - st.low - ((i.2.2 : Int) * st.band) / 65536)
  let bd := satI16 (st.band + ((i.2.1 : Int) * hi) / 65536)
  let lo := satI16 (st.low + ((i.2.1 : Int) * bd) / 65536)
  (⟨lo, bd⟩, (lo, bd, hi))

/-- Modelled from the spec: `culsynth_filt_i16_process`, whose body is
absent from the sources. -/
def culsynth_filt_i16_process (sr : Nat) (s : FiltStateI)
    (input : List (Int × Nat × Nat)) : ProcResult FiltStateI (Int × Int × Int) :=
  culsynthProcess filtI16Step sr s input

theorem filtStep_out_bounded (st : FiltState) (i : ℚ × ℚ × ℚ) :
    -1 ≤ (filtStep st i).2.1 ∧ (filtStep st i).2.1 ≤ 1 ∧
      -1 ≤ (filtStep st i).2.2.1 ∧ (filtStep st i).2.2.1 ≤ 1 ∧
      -1 ≤ (filtStep st i).2.2.2 ∧ (filtStep st i).2.2.2 ≤ 1 := by
  simp only [filtStep]
  refine ⟨clampQ_lower _ _ _, clampQ_upper (by norm_num) _,
    clampQ_lower _ _ _, clampQ_upper (by norm_num) _,
    clampQ_lower _ _ _, clampQ_upper (by norm_num) _⟩

theorem filtStep_state_bounded (st : FiltState) (i : ℚ × ℚ × ℚ) :
    -1 ≤ (filtStep st i).1.low ∧ (filtStep st i).1.low ≤ 1 ∧
      -1 ≤ (filtStep st i).1.band ∧ (filtStep st i).1.band ≤ 1 := by
  simp only [filtStep]
  refine ⟨clampQ_lower _ _ _, clampQ_upper (by norm_num) _,
    clampQ_lower _ _ _, clampQ_upper (by norm_num) _⟩

theorem filtI16Step_out_bounded (st : FiltStateI) (i : Int × Nat × Nat) :
    -32768 ≤ (filtI16Step st i).2.1 ∧ (filtI16Step st i).2.1 ≤ 32767 ∧
      -32768 ≤ (filtI16Step st i).2.2.1 ∧ (filtI16Step st i).2.2.1 ≤ 32767 ∧
      -32768 ≤ (filtI16Step st i).2.2.2 ∧ (filtI16Step st i).2.2.2 ≤ 32767 := by
  simp only [filtI16Step]
  exact ⟨satI16_lower _, satI16_upper _, satI16_lower _, satI16_upper _,
    satI16_lower _, satI16_upper _⟩

/-- Claim C6: the state-variable filter (both variants) never diverges — for
every cutoff and resonance stream, every input stream of arbitrary length,
every supported sample rate and every in-range starting state, every written
output frame (low, band, high) and both integrator states stay within the
normalized signal range (`[-1, 1]` for the rational model of the floating
variant, the signed 16-bit range for the fixed-point variant). -/
theorem filt_process_bounded (sr : Nat) (h : supportedSR sr = true)
    (st : FiltState) (sti : FiltStateI)
    (qs : List (ℚ × ℚ × ℚ)) (zs : List (Int × Nat × Nat))
    (hst : -1 ≤ st.low ∧ st.low ≤ 1 ∧ -1 ≤ st.band ∧ st.band ≤ 1) :
    (∀ t ∈ (culsynth_filt_f32_process sr st qs).out,
        -1 ≤ t.1 ∧ t.1 ≤ 1 ∧ -1 ≤ t.2.1 ∧ t.2.1 ≤ 1 ∧
          -1 ≤ t.2.2 ∧ t.2.2 ≤ 1) ∧
      (-1 ≤ (culsynth_filt_f32_process sr st qs).state.low ∧
        (culsynth_filt_f32_process sr st qs).state.low ≤ 1 ∧
        -1 ≤ (culsynth_filt_f32_process sr st qs).state.band ∧
        (culsynth_filt_f32_process sr st qs).state.band ≤ 1) ∧
      (∀ t ∈ (culsynth_filt_i16_process sr sti zs).out,
        -32768 ≤ t.1 ∧ t.1 ≤ 32767 ∧ -32768 ≤ t.2.1 ∧ t.2.1 ≤ 32767 ∧
          -32768 ≤ t.2.2 ∧ t.2.2 ≤ 32767) := by
  unfold culsynth_filt_f32_process culsynth_filt_i16_process culsynthProcess
  simp only [h, if_pos]
  refine ⟨?_, ?_, ?_⟩
  · exact runUnit_out_forall (fun s i => filtStep_out_bounded s i) st qs
  · exact runUnit_state_invariant
      (P := fun q => -1 ≤ q.low ∧ q.low ≤ 1 ∧ -1 ≤ q.band ∧ q.band ≤ 1)
      (fun s i _ => filtStep_state_bounded s i) st qs hst
  · exact runUnit_out_forall (fun s i => filtI16Step_out_bounded s i) sti zs

/-- Witness for C6 at 44.1 kHz from the zero-initialized states, with a
one-frame constant input, minimum resonance and mid-range cutoff. -/
theorem filt_process_bounded_witness :
    (supportedSR 44100 = true ∧
        ((-1 : ℚ) ≤ 0 ∧ (0 : ℚ) ≤ 1 ∧ (-1 : ℚ) ≤ 0 ∧ (0 : ℚ) ≤ 1)) ∧
      ((∀ t ∈ (culsynth_filt_f32_process 44100 ⟨0, 0⟩ [(1, 1/2, 0)]).out,
          -1 ≤ t.1 ∧ t.1 ≤ 1 ∧ -1 ≤ t.2.1 ∧ t.2.1 ≤ 1 ∧
            -1 ≤ t.2.2 ∧ t.2.2 ≤ 1) ∧
        (-1 ≤ (culsynth_filt_f32_process 44100 ⟨0, 0⟩ [(1, 1/2, 0)]).state.low ∧
          (culsynth_filt_f32_process 44100 ⟨0, 0⟩ [(1, 1/2, 0)]).state.low ≤ 1 ∧
          -1 ≤ (culsynth_filt_f32_process 44100 ⟨0, 0⟩ [(1, 1/2, 0)]).state.band ∧
          (culsynth_filt_f32_process 44100 ⟨0, 0⟩ [(1, 1/2, 0)]).state.band ≤ 1) ∧
        (∀ t ∈ (culsynth_filt_i16_process 44100 ⟨0, 0⟩
              [(16384, 32768, 0)]).out,
          -32768 ≤ t.1 ∧ t.1 ≤ 32767 ∧ -32768 ≤ t.2.1 ∧ t.2.1 ≤ 32767 ∧
            -32768 ≤ t.2.2 ∧ t.2.2 ≤ 32767)) :=
  ⟨⟨by decide, by norm_num⟩,
    filt_process_bounded 44100 (by decide) ⟨0, 0⟩ ⟨0, 0⟩ [(1, 1/2, 0)]
      [(16384, 32768, 0)] (by norm_num)⟩

/-! ## Oscillator -/

/-- The oscillator's per-instance state: the single phase accumulator,
normalized to cycles (`[0, 1)` when reachable). -/
structure OscState where
  phase : ℚ
deriving DecidableEq, Repr

/-- Modelled from the spec (§4.4): the per-sample phase increment, in cycles
per sample, derived from the `note` and `tune` control values at the given
sample rate.  The spec's exact exponential pitch-to-frequency law is an open
question it leaves to the implementer (§9); the claims under verification
concern only phase handling, so a representative rational frequency map is
used, wrapped into `[0, 1)` cycles per sample. -/
def phaseIncOf (sr : Nat) (note tune : ℚ) : ℚ :=
  Int.fract ((note + tune) / ((sr : ℚ) + 1))

/-- Modelled from the spec (§4.4): normalized naive sawtooth of a phase in
cycles — ramps from -1 at phase 0 to +1 at the end of the cycle. -/
def saww (p : ℚ) : ℚ := 2 * p - 1

/-- Modelled from the spec (§4.4): normalized naive square of a phase in
cycles. -/
def sqw (p : ℚ) : ℚ := if p < 1/2 then 1 else -1

/-- Modelled from the spec (§4.4): normalized naive triangle of a phase in
cycles. -/
def triw (p : ℚ) : ℚ := if p < 1/2 then 4 * p - 1 else 3 - 4 * p

/-- Modelled from the spec (§4.4): rational stand-in for the sine of a phase
in cycles (the classic piecewise-parabolic approximation, sharing the exact
sine's zero-crossings at phases 0 and ½). -/
def sinw (p : ℚ) : ℚ :=
  if p < 1/2 then 16 * p * (1/2 - p) else -16 * (p - 1/2) * (1 - p)

/-- Modelled from the spec (§4.4): the per-sample oscillator update behind
`culsynth_osc_f32_process`, whose body is absent from the sources.  The
phase accumulator advances by the per-sample increment and wraps exactly
modulo one cycle (`Int.fract`), and all four waveforms are computed together
from the single wrapped phase — the same instantaneous phase for sine,
triangle, square and saw.  The input frame is `(note, tune, shape)`; `shape`
morphs a blended output not exposed by this boundary, so it does not affect
the four raw waveform outputs. -/
def oscStep (sr : Nat) (st : OscState) (i : ℚ × ℚ × ℚ) :
    OscState × (ℚ × ℚ × ℚ × ℚ) :=
  let p := Int.fract (st.phase + phaseIncOf sr i.1 i.2.1)
  (⟨p⟩, (sinw p, triw p, sqw p, saww p))

/-- Modelled from the spec: `culsynth_osc_f32_process`, whose body is absent
from the sources. -/
def culsynth_osc_f32_process (sr : Nat) (s : OscState)
    (input : List (ℚ × ℚ × ℚ)) : ProcResult OscState (ℚ × ℚ × ℚ × ℚ) :=
  culsynthProcess (oscStep sr) sr s input

/-- The trajectory of wrapped phase values the oscillator steps through over
an input buffer: one phase per output frame. -/
def oscPhases (sr : Nat) : OscState → List (ℚ × ℚ × ℚ) → List ℚ
  | _, [] => []
  | st, i :: is =>
    let p := Int.fract (st.phase + phaseIncOf sr i.1 i.2.1)
    p :: oscPhases sr ⟨p⟩ is

theorem osc_out_eq_map_phases (sr : Nat) (st : OscState)
    (is : List (ℚ × ℚ × ℚ)) :
    (runUnit (oscStep sr) st is).2 =
      (oscPhases sr st is).map (fun p => (sinw p, triw p, sqw p, saww p)) := by
  induction is generalizing st with
  | nil => rfl
  | cons i is ih => simp only [runUnit_cons, oscPhases, List.map, oscStep, ih]

theorem oscPhases_mem_range (sr : Nat) (st : OscState)
    (is : List (ℚ × ℚ × ℚ)) :
    ∀ p ∈ oscPhases sr st is, 0 ≤ p ∧ p < 1 := by
  induction is generalizing st with
  | nil => intro p hp; simp [oscPhases] at hp
  | cons i is ih =>
    intro p hp
    simp only [oscPhases, List.mem_cons] at hp
    rcases hp with h | h
    · exact h ▸ ⟨Int.fract_nonneg _, Int.fract_lt_one _⟩
    · exact ih _ p h

/-- Modelled from the spec (§4.4, fixed-point variant): the per-sample phase
increment for the 16-bit oscillator, an exact unsigned 16-bit cycle
fraction. -/
def incI16 (sr : Nat) (note : Nat) (tune : Int) : Nat :=
  (note * 65536 / (sr + 1) + (tune + 32768).toNat) % 65536

/-- Modelled from the spec (§4.4): 16-bit naive sawtooth of a 16-bit
phase. -/
def sawI16w (p : Nat) : Int := satI16 ((p : Int) - 32768)

/-- Modelled from the spec (§4.4): 16-bit naive square of a 16-bit phase. -/
def sqI16w (p : Nat) : Int := if p < 32768 then 32767 else -32768

/-- Modelled from the spec (§4.4): 16-bit naive triangle of a 16-bit
phase. -/
def triI16w (p : Nat) : Int :=
  satI16 (if p < 32768 then 2 * (p : Int) - 32768 else 98303 - 2 * (p : Int))

/-- Modelled from the spec (§4.4): 16-bit piecewise-parabolic sine stand-in
of a 16-bit phase, saturated into the output range. -/
def sinI16w (p : Nat) : Int :=
  satI16 (if p < 32768 then ((p : Int) * (32768 - (p : Int))) / 8192
    else -(((p : Int) - 32768) * (65536 - (p : Int))) / 8192)

/-- Modelled from the spec (§4.4, fixed-point variant): the per-sample
update behind `culsynth_osc_i16_process`, whose body is absent from the
sources.  The 16-bit phase accumulator wraps exactly modulo 2^16 (one
cycle), and all four waveforms are computed from the single wrapped
phase. -/
def oscI16Step (sr : Nat) (st : Nat) (i : Nat × Int × Nat) :
    Nat × (Int × Int × Int × Int) :=
  let p := (st + incI16 sr i.1 i.2.1) % 65536
  (p, (sinI16w p, triI16w p, sqI16w p, sawI16w p))

/-- Modelled from the spec: `culsynth_osc_i16_process`, whose body is absent
from the sources. -/
def culsynth_osc_i16_process (sr : Nat) (s : Nat)
    (input : List (Nat × Int × Nat)) : ProcResult Nat (Int × Int × Int × Int) :=
  culsynthProcess (oscI16Step sr) sr s input

theorem oscI16Step_out_bounded (sr : Nat) (st : Nat) (i : Nat × Int × Nat) :
    -32768 ≤ (oscI16Step sr st i).2.1 ∧ (oscI16Step sr st i).2.1 ≤ 32767 ∧
      -32768 ≤ (oscI16Step sr st i).2.2.1 ∧ (oscI16Step sr st i).2.2.1 ≤ 32767 ∧
      -32768 ≤ (oscI16Step sr st i).2.2.2.1 ∧
      (oscI16Step sr st i).2.2.2.1 ≤ 32767 ∧
      -32768 ≤ (oscI16Step sr st i).2.2.2.2 ∧
      (oscI16Step sr st i).2.2.2.2 ≤ 32767 := by
  simp only [oscI16Step, sqI16w]
  refine ⟨satI16_lower _, satI16_upper _, satI16_lower _, satI16_upper _,
    ?_, ?_, satI16_lower _, satI16_upper _⟩ <;> split_ifs <;> decide

/-- The trajectory of wrapped 16-bit phase values the fixed-point oscillator
steps through over an input buffer: one phase per output frame. -/
def oscI16Phases (sr : Nat) : Nat → List (Nat × Int × Nat) → List Nat
  | _, [] => []
  | st, i :: is =>
    let p := (st + incI16 sr i.1 i.2.1) % 65536
    p :: oscI16Phases sr p is

theorem oscI16_out_eq_map_phases (sr : Nat) (st : Nat)
    (is : List (Nat × Int × Nat)) :
    (runUnit (oscI16Step sr) st is).2 =
      (oscI16Phases sr st is).map
        (fun p => (sinI16w p, triI16w p, sqI16w p, sawI16w p)) := by
  induction is generalizing st with
  | nil => rfl
  | cons i is ih =>
    simp only [runUnit_cons, oscI16Phases, List.map, oscI16Step, ih]

theorem oscI16Phases_mem_range (sr : Nat) (st : Nat)
    (is : List (Nat × Int × Nat)) :
    ∀ p ∈ oscI16Phases sr st is, p < 65536 := by
  induction is generalizing st with
  | nil => intro p hp; simp [oscI16Phases] at hp
  | cons i is ih =>
    intro p hp
    simp only [oscI16Phases, List.mem_cons] at hp
    rcases hp with h | h
    · exact h ▸ Nat.mod_lt _ (by norm_num)
    · exact ih _ p h

/-- Claim C8: the oscillator, in both numeric variants — at every sample all
four outputs (sine, triangle, square, saw) are the four waveform functions
evaluated at one and the same instantaneous phase (the output buffer is the
image of the single phase trajectory, so the triangle/square/saw are
phase-locked to the sine); every phase in the trajectory stays within one
cycle's range however long the run (`[0, 1)` cycles for the floating model,
`[0, 2^16)` for the 16-bit accumulator) — no accumulated drift; and each
step's wrap is exact modulo one cycle: the new phase is the old phase plus
the increment minus an exact whole number of cycles. -/
theorem osc_phase_locked (sr : Nat) (st : OscState) (is : List (ℚ × ℚ × ℚ))
    (sti : Nat) (zs : List (Nat × Int × Nat)) :
    (runUnit (oscStep sr) st is).2 =
        (oscPhases sr st is).map (fun p => (sinw p, triw p, sqw p, saww p)) ∧
      (∀ p ∈ oscPhases sr st is, 0 ≤ p ∧ p < 1) ∧
      (∀ (q : OscState) (i : ℚ × ℚ × ℚ), ∃ k : ℤ,
        (oscStep sr q i).1.phase =
          q.phase + phaseIncOf sr i.1 i.2.1 - k) ∧
      (runUnit (oscI16Step sr) sti zs).2 =
        (oscI16Phases sr sti zs).map
          (fun p => (sinI16w p, triI16w p, sqI16w p, sawI16w p)) ∧
      (∀ p ∈ oscI16Phases sr sti zs, p < 65536) ∧
      (∀ (q : Nat) (i : Nat × Int × Nat), ∃ k : Nat,
        q + incI16 sr i.1 i.2.1 = 65536 * k + (oscI16Step sr q i).1 ∧
          (oscI16Step sr q i).1 < 65536) := by
  refine ⟨osc_out_eq_map_phases sr st is, oscPhases_mem_range sr st is, ?_,
    oscI16_out_eq_map_phases sr sti zs, oscI16Phases_mem_range sr sti zs, ?_⟩
  · intro q i
    exact ⟨⌊q.phase + phaseIncOf sr i.1 i.2.1⌋, rfl⟩
  · intro q i
    exact ⟨(q + incI16 sr i.1 i.2.1) / 65536,
      (Nat.div_add_mod (q + incI16 sr i.1 i.2.1) 65536).symm,
      Nat.mod_lt _ (by norm_num)⟩

/-- Outputs of a full `process` call inherit any per-step output bound: on a
supported rate each frame comes from one step, and on an unsupported rate
nothing is written at all. -/
theorem process_out_forall {S I O : Type} (step : S → I → S × O) {P : O → Prop}
    (hstep : ∀ s i, P (step s i).2) (sr : Nat) (s : S) (is : List I) :
    ∀ o ∈ (culsynthProcess step sr s is).out, P o := by
  unfold culsynthProcess
  split_ifs with h
  · exact runUnit_out_forall hstep s is
  · intro o ho; simp at ho

/-- Claim C9: every fixed-point (i16) processing path keeps its written
values in range by saturating/clamping arithmetic — for every sample rate,
every starting state and every input streams, every value the four `i16`
units write to an output buffer lies in the signed 16-bit range (unsigned
16-bit for the envelope level), it is by construction the
saturated/clamped representation of the computed quantity (shown literally
for the amplifier's product and the filter's high-pass node), and the
saturation function itself never leaves the representable range — nothing
wraps modulo 2^16. -/
theorem fxp_paths_saturating (sr : Nat) (se : EnvStateI) (sf : FiltStateI)
    (so : Nat) (ia : List (Int × Nat)) (ie : List (Bool × Nat × Nat × Nat × Nat))
    (fi : List (Int × Nat × Nat)) (oi : List (Nat × Int × Nat)) :
    (∀ o ∈ (culsynth_amp_i16_process sr () ia).out,
        -32768 ≤ o ∧ o ≤ 32767) ∧
      (∀ (s : Unit) (i : Int × Nat),
        (ampI16Step s i).2 = satI16 ((i.1 * (i.2 : Int)) / 65536)) ∧
      (∀ o ∈ (culsynth_env_i16_process sr se ie).out, o ≤ 65535) ∧
      (∀ t ∈ (culsynth_filt_i16_process sr sf fi).out,
        -32768 ≤ t.1 ∧ t.1 ≤ 32767 ∧ -32768 ≤ t.2.1 ∧ t.2.1 ≤ 32767 ∧
          -32768 ≤ t.2.2 ∧ t.2.2 ≤ 32767) ∧
      (∀ (s : FiltStateI) (i : Int × Nat × Nat),
        (filtI16Step s i).2.2.2 =
          satI16 (i.1 - s.low - ((i.2.2 : Int) * s.band) / 65536)) ∧
      (∀ q ∈ (culsynth_osc_i16_process sr so oi).out,
        -32768 ≤ q.1 ∧ q.1 ≤ 32767 ∧ -32768 ≤ q.2.1 ∧ q.2.1 ≤ 32767 ∧
          -32768 ≤ q.2.2.1 ∧ q.2.2.1 ≤ 32767 ∧
          -32768 ≤ q.2.2.2 ∧ q.2.2.2 ≤ 32767) ∧
      (∀ x : Int, -32768 ≤ satI16 x ∧ satI16 x ≤ 32767) := by
  refine ⟨?_, fun s i => rfl, ?_, ?_, fun s i => rfl, ?_,
    fun x => ⟨satI16_lower x, satI16_upper x⟩⟩
  · exact process_out_forall ampI16Step
      (fun s i => ⟨satI16_lower _, satI16_upper _⟩) sr () ia
  · exact process_out_forall (envI16Step sr)
      (fun s i => envI16Step_out_le sr s i) sr se ie
  · exact process_out_forall filtI16Step
      (fun s i => filtI16Step_out_bounded s i) sr sf fi
  · exact process_out_forall (oscI16Step sr)
      (fun s i => oscI16Step_out_bounded sr s i) sr so oi

/-! ## The C++ wrapper classes (namespace `culsynth`, culsynth.h 119-283) -/

/-- The four DSP units of the boundary. -/
inductive CUnit
  | amp
  | env
  | filt
  | osc
deriving DecidableEq, Repr

/-- The two numeric variants of every unit. -/
inductive CVariant
  | i16
  | f32
deriving DecidableEq, Repr

/-- Identity of a C entry-point family: which unit and numeric variant its
`_new` / `_free` / `_process` functions belong to (e.g. `⟨amp, i16⟩` stands
for `culsynth_amp_i16_*`). -/
structure CFun where
  unit : CUnit
  variant : CVariant
deriving DecidableEq, Repr

/-- The eight C++ wrapper classes of namespace `culsynth`. -/
inductive WrapperClass
  | Amp
  | AmpFxP
  | Env
  | EnvFxP
  | Filt
  | FiltFxP
  | Osc
  | OscFxP
deriving DecidableEq, Repr, Fintype

/-- Which C `_new` function each wrapper class's constructor calls to create
its handle, read off the source (culsynth.h lines 125, 140, 155, 177, 199,
221, 243, 266). -/
def ctorNewFn : WrapperClass → CFun
  | .Amp => ⟨.amp, .f32⟩
  | .AmpFxP => ⟨.amp, .i16⟩
  | .Env => ⟨.env, .f32⟩
  | .EnvFxP => ⟨.env, .i16⟩
  | .Filt => ⟨.filt, .f32⟩
  | .FiltFxP => ⟨.filt, .i16⟩
  | .Osc => ⟨.osc, .f32⟩
  | .OscFxP => ⟨.osc, .i16⟩

/-- Which C `_free` function each wrapper class's destructor calls, read off
the source (culsynth.h lines 126, 141, 156, 178, 200, 222, 244, 267).  Note
line 141: `~AmpFxP() { culsynth_amp_f32_free(ffi); }` — the `f32` free
function, although the constructor on line 140 created the handle with
`culsynth_amp_i16_new()`. -/
def dtorFreeFn : WrapperClass → CFun
  | .Amp => ⟨.amp, .f32⟩
  | .AmpFxP => ⟨.amp, .f32⟩
  | .Env => ⟨.env, .f32⟩
  | .EnvFxP => ⟨.env, .i16⟩
  | .Filt => ⟨.filt, .f32⟩
  | .FiltFxP => ⟨.filt, .i16⟩
  | .Osc => ⟨.osc, .f32⟩
  | .OscFxP => ⟨.osc, .i16⟩

/-- Which C `_process` function each wrapper class's `process` member
forwards to, read off the source (culsynth.h lines 130, 145, 167, 189, 211,
233, 256, 279). -/
def processCallee : WrapperClass → CFun
  | .Amp => ⟨.amp, .f32⟩
  | .AmpFxP => ⟨.amp, .i16⟩
  | .Env => ⟨.env, .f32⟩
  | .EnvFxP => ⟨.env, .i16⟩
  | .Filt => ⟨.filt, .f32⟩
  | .FiltFxP => ⟨.filt, .i16⟩
  | .Osc => ⟨.osc, .f32⟩
  | .OscFxP => ⟨.osc, .i16⟩

/-- The unit whose name each wrapper class carries. -/
def wrapperUnit : WrapperClass → CUnit
  | .Amp => .amp
  | .AmpFxP => .amp
  | .Env => .env
  | .EnvFxP => .env
  | .Filt => .filt
  | .FiltFxP => .filt
  | .Osc => .osc
  | .OscFxP => .osc

/-- The numeric variant each wrapper class carries (`FxP` suffix: `i16`;
otherwise `f32`). -/
def wrapperVariant : WrapperClass → CVariant
  | .Amp => .f32
  | .AmpFxP => .i16
  | .Env => .f32
  | .EnvFxP => .i16
  | .Filt => .f32
  | .FiltFxP => .i16
  | .Osc => .f32
  | .OscFxP => .i16

/-- Claim C1 (refuted by the source — code bug): the claim says every
wrapper class's destructor calls the free function of the same unit and
variant whose new function its constructor used.  `culsynth::AmpFxP` is
constructed with `culsynth_amp_i16_new` (line 140) but destroyed with
`culsynth_amp_f32_free` (line 141), so its teardown does not match; the
other seven classes all pair correctly, which shows the matching teardown is
the intent and line 141 a slip. -/
theorem ampFxP_free_mismatch :
    ctorNewFn .AmpFxP = ⟨.amp, .i16⟩ ∧
      dtorFreeFn .AmpFxP = ⟨.amp, .f32⟩ ∧
      dtorFreeFn .AmpFxP ≠ ctorNewFn .AmpFxP ∧
      ¬(∀ w : WrapperClass, dtorFreeFn w = ctorNewFn w) ∧
      (∀ w : WrapperClass, w ≠ .AmpFxP → dtorFreeFn w = ctorNewFn w) := by
  refine ⟨rfl, rfl, by decide, ?_, by decide⟩
  intro hall
  exact absurd (hall .AmpFxP) (by decide)

/-- Each C++ wrapper object stores exactly one opaque handle, the
`void* ffi` member. -/
structure Wrapper (H : Type) where
  ffi : H

/-- `culsynth::Amp::process` / `culsynth::AmpFxP::process` (culsynth.h
lines 127-132 and 142-147): the member body forwards the stored handle and
the five arguments `(sample_rate, samples, signal, gain, out)`, in order, to
the unit's C process function and returns its result unchanged.  The C
function is abstract here (`impl`), with fully abstract argument and result
types. -/
def ampProcessW {H A B C D E R : Type} (impl : H → A → B → C → D → E → R)
    (self : Wrapper H) (sample_rate : A) (samples : B) (signal : C) (gain : D)
    (out : E) : R :=
  impl self.ffi sample_rate samples signal gain out

/-- `culsynth::Env::process` / `culsynth::EnvFxP::process` (culsynth.h
lines 157-169 and 179-191): forwards the stored handle and the eight
arguments `(sample_rate, samples, gate, attack, decay, sustain, release,
signal)`, in order, to the unit's C process function. -/
def envProcessW {H A B C D E F G J R : Type}
    (impl : H → A → B → C → D → E → F → G → J → R) (self : Wrapper H)
    (sample_rate : A) (samples : B) (gate : C) (attack : D) (decay : E)
    (sustain : F) (release : G) (signal : J) : R :=
  impl self.ffi sample_rate samples gate attack decay sustain release signal

/-- `culsynth::Filt::process` / `culsynth::FiltFxP::process` (culsynth.h
lines 201-213 and 223-235): forwards the stored handle and the eight
arguments `(sample_rate, samples, input, cutoff, resonance, low, band,
high)`, in order, to the unit's C process function. -/
def filtProcessW {H A B C D E F G J R : Type}
    (impl : H → A → B → C → D → E → F → G → J → R) (self : Wrapper H)
    (sample_rate : A) (samples : B) (input : C) (cutoff : D) (resonance : E)
    (low : F) (band : G) (high : J) : R :=
  impl self.ffi sample_rate samples input cutoff resonance low band high

/-- `culsynth::Osc::process` / `culsynth::OscFxP::process` (culsynth.h
lines 245-258 and 268-281): forwards the stored handle and the nine
arguments `(sample_rate, samples, note, tune, shape, sin, tri, sq, saw)`, in
order, to the unit's C process function. -/
def oscProcessW {H A B C D E F G J K R : Type}
    (impl : H → A → B → C → D → E → F → G → J → K → R) (self : Wrapper H)
    (sample_rate : A) (samples : B) (note : C) (tune : D) (shape : E)
    (sin : F) (tri : G) (sq : J) (saw : K) : R :=
  impl self.ffi sample_rate samples note tune shape sin tri sq saw

/-- Claim C10: every `process` member of the eight wrapper classes is a pure
pass-through — it applies the corresponding C process function of its unit
and variant (per `processCallee`, which matches each class's own unit and
variant) to the stored handle and all its arguments unchanged and in the
same order, returning that function's status code unchanged. -/
theorem wrapper_process_pass_through :
    (∀ (H A B C D E R : Type) (impl : H → A → B → C → D → E → R)
        (self : Wrapper H) (sr : A) (n : B) (sig : C) (g : D) (o : E),
        ampProcessW impl self sr n sig g o = impl self.ffi sr n sig g o) ∧
      (∀ (H A B C D E F G J R : Type)
          (impl : H → A → B → C → D → E → F → G → J → R) (self : Wrapper H)
          (sr : A) (n : B) (gt : C) (a : D) (d : E) (s : F) (r : G) (o : J),
        envProcessW impl self sr n gt a d s r o =
          impl self.ffi sr n gt a d s r o) ∧
      (∀ (H A B C D E F G J R : Type)
          (impl : H → A → B → C → D → E → F → G → J → R) (self : Wrapper H)
          (sr : A) (n : B) (x : C) (c : D) (q : E) (lo : F) (bd : G) (hi : J),
        filtProcessW impl self sr n x c q lo bd hi =
          impl self.ffi sr n x c q lo bd hi) ∧
      (∀ (H A B C D E F G J K R : Type)
          (impl : H → A → B → C → D → E → F → G → J → K → R)
          (self : Wrapper H) (sr : A) (n : B) (nt : C) (tn : D) (sh : E)
          (w1 : F) (w2 : G) (w3 : J) (w4 : K),
        oscProcessW impl self sr n nt tn sh w1 w2 w3 w4 =
          impl self.ffi sr n nt tn sh w1 w2 w3 w4) ∧
      (∀ w : WrapperClass, processCallee w = ⟨wrapperUnit w, wrapperVariant w⟩) := by
  exact ⟨fun _ _ _ _ _ _ _ _ _ _ _ _ _ _ => rfl,
    fun _ _ _ _ _ _ _ _ _ _ _ _ _ _ _ _ _ _ _ _ => rfl,
    fun _ _ _ _ _ _ _ _ _ _ _ _ _ _ _ _ _ _ _ _ => rfl,
    fun _ _ _ _ _ _ _ _ _ _ _ _ _ _ _ _ _ _ _ _ _ _ => rfl,
    by decide⟩

end Culsynth
